import Mathlib

/- Verification of the zwift_capture telemetry-extraction core
   (src/lib.rs): direction classification, client-frame location,
   decode dispatch, field normalization, and the capture iterator. -/

namespace Zwift

/-- RustPanic enumerates the abort conditions reachable in the Rust code:
indexing payload[0] on an empty slice, and slicing with an invalid range. -/
inductive RustPanic where
  | indexOutOfBounds
  | sliceOutOfRange
deriving DecidableEq, Repr

/-- USIZE is the modulus of 64-bit usize arithmetic on the target. -/
def USIZE : Nat := 2 ^ 64

/-- wsub a b is wrapping subtraction on usize, the release-mode semantics of
a - b (lib.rs line 101 computes payload.len() - 4 with it). -/
def wsub (a b : Nat) : Nat := (a + (USIZE - b % USIZE)) % USIZE

/-- rustSlice p lo hi models the Rust slice expression with range lo..hi on
p: the sub-list when the range is valid, a slice-range abort otherwise. -/
def rustSlice (p : List Nat) (lo hi : Nat) : Except RustPanic (List Nat) :=
  if lo ≤ hi ∧ hi ≤ p.length then Except.ok ((p.drop lo).take (hi - lo))
  else Except.error RustPanic.sliceOutOfRange

/-- Modelled from the spec: the decoded rider-state entry shared by the two
schema messages (section 3 table of the spec). The generated protobuf
module zwift_messages, which declares PlayerState and its getters, is not
under src/, so the field set is taken from the spec table; each raw decoded
field is an integer there. The source field named lean is written lean_. -/
structure PlayerState where
  id : Int
  worldTime : Int
  groupId : Int
  x : Int
  y : Int
  heading : Int
  lean_ : Int
  roadPosition : Int
  speed : Int
  distance : Int
  time : Int
  laps : Int
  climbing : Int
  cadenceUHz : Int
  heartrate : Int
  power : Int
  f20 : Int
  watchingRiderId : Int
deriving DecidableEq, Repr

/-- Player is the normalized rider-state record (lib.rs lines 12-42). The
f64 fields x, y and speed are modelled as exact rationals; the divisions
the code performs on them are exact at every instance the claims test. -/
structure Player where
  id : Int
  world_time : Int
  group_id : Int
  x : ℚ
  y : ℚ
  heading : Int
  lean_ : Int
  road_position : Int
  speed : ℚ
  distance : Int
  time : Int
  laps : Int
  climbing : Int
  cadence : Int
  heartrate : Int
  power : Int
  power_up : Int
  watching_rider_id : Int
deriving DecidableEq, Repr

/-- Player.ofState is the Field Normalizer, Player::from of lib.rs lines
44-77 (named ofState because from is reserved in Lean). Integer division
on cadence is Rust i32 division, truncation toward zero, hence Int.tdiv. -/
def Player.ofState (ps : PlayerState) : Player :=
  { id := ps.id
    world_time := ps.worldTime
    group_id := ps.groupId
    x := (ps.x : ℚ) / 100
    y := (ps.y : ℚ) / 100
    heading := ps.heading
    lean_ := ps.lean_
    road_position := ps.roadPosition
    distance := ps.distance
    time := ps.time
    laps := ps.laps
    speed := (ps.speed : ℚ) / 1000 / 60 / 60
    climbing := ps.climbing
    cadence := Int.tdiv (Int.tdiv ps.cadenceUHz 1000 * 6) 100
    heartrate := ps.heartrate
    power := ps.power
    power_up := Int.land ps.f20 0xf
    watching_rider_id := ps.watchingRiderId }

/-- Modelled from the spec: the server-to-client schema message, a repeated
collection of rider-state entries (the protobuf wire decoder itself is an
external trusted library per section 1 of the spec). -/
structure ServerToClient where
  player_states : List PlayerState
deriving DecidableEq, Repr

/-- Modelled from the spec: the client-to-server schema message with one
embedded rider-state entry; get_state of the generated code yields the
entry (or a default instance), modelled as the field state. -/
structure ClientToServer where
  state : PlayerState
deriving DecidableEq, Repr

/-- ZwiftMessage is the direction-tagged payload (lib.rs lines 80-83). -/
inductive ZwiftMessage where
  | FromServer (payload : List Nat)
  | ToServer (payload : List Nat)
deriving DecidableEq, Repr

/-- scanOffset is the fallback loop of lib.rs lines 103-111: walk the bytes
from index ix; the first byte equal to 0x08 breaks with its index, a byte
at index limit that is not 0x08 breaks with 0, and if the list is exhausted
with no break the entering offset off0 is kept. -/
def scanOffset (limit off0 : Nat) : Nat → List Nat → Nat
  | _, [] => off0
  | ix, b :: rest =>
    if b = 8 then ix
    else if ix = limit then 0
    else scanOffset limit off0 (ix + 1) rest

/-- locateOffset is the Frame Locator (lib.rs lines 100-112): primary guess
payload[0] - 1 on u8 with release wrap-around, limit payload.len() - 4 on
usize with release wrap-around, and the fallback scan exactly when the
guess is not below the limit. b is payload[0], p the whole payload. -/
def locateOffset (b : Nat) (p : List Nat) : Nat :=
  let off0 := (b + 255) % 256
  let limit := wsub p.length 4
  if limit ≤ off0 then scanOffset limit off0 0 p else off0

/-- get_players (lib.rs lines 86-120), parameterized by the two external
protobuf decoders (the spec treats the wire decoder as a trusted library:
bytes in, typed fields out); a decoder returns none exactly when
parse_from_bytes returns Err. The Rust aborts of the ToServer branch
(payload[0] on an empty payload, the payload slice at offset..limit) are
the Except.error outcomes; a normal Rust return is Except.ok. -/
def ZwiftMessage.get_players
    (pS : List Nat → Option ServerToClient)
    (pC : List Nat → Option ClientToServer) :
    ZwiftMessage → Except RustPanic (Option (List Player))
  | ZwiftMessage.FromServer payload =>
    match pS payload with
    | some message => Except.ok (some (message.player_states.map Player.ofState))
    | none => Except.ok (some [])
  | ZwiftMessage.ToServer payload =>
    match payload with
    | [] => Except.error RustPanic.indexOutOfBounds
    | b :: rest =>
      (rustSlice (b :: rest) (locateOffset b (b :: rest))
          (wsub (b :: rest).length 4)).bind fun w =>
        match pC w with
        | some message => Except.ok (some [Player.ofState message.state])
        | none => Except.ok (some [])

/-- Frame abstracts one captured frame after the external decapsulation
step (pcap and etherparse are external collaborators): ethernet slicing
failed, or the parsed packet carries no UDP transport, or it is UDP with a
source port, a destination port and a payload. -/
inductive Frame where
  | badEthernet
  | nonUdpTransport
  | udp (source_port : Nat) (dest_port : Nat) (payload : List Nat)
deriving DecidableEq, Repr

/-- ZwiftCapture models the capture handle as the list of frames the source
still holds; capture.next() fails exactly when the list is empty. -/
structure ZwiftCapture where
  capture : List Frame
deriving DecidableEq, Repr

/-- next_payload (lib.rs lines 130-148): pop the next frame; a UDP frame is
classified by its source port (3022 gives FromServer, any other port gives
ToServer, lines 134-142); every other outcome returns none for this call.
The second component is the advanced capture state. -/
def ZwiftCapture.next_payload :
    ZwiftCapture → Option ZwiftMessage × ZwiftCapture
  | ⟨[]⟩ => (none, ⟨[]⟩)
  | ⟨Frame.badEthernet :: rest⟩ => (none, ⟨rest⟩)
  | ⟨Frame.nonUdpTransport :: rest⟩ => (none, ⟨rest⟩)
  | ⟨Frame.udp sp _ payload :: rest⟩ =>
    (some (if sp = 3022 then ZwiftMessage.FromServer payload
           else ZwiftMessage.ToServer payload), ⟨rest⟩)

/-- next (lib.rs lines 151-162, the Iterator impl): Some players when
next_payload produced a message and get_players returned Some, otherwise
none, the iterator end signal. A Rust abort inside get_players is the
error outcome. -/
def ZwiftCapture.next
    (pS : List Nat → Option ServerToClient)
    (pC : List Nat → Option ClientToServer)
    (c : ZwiftCapture) :
    Except RustPanic (Option (List Player)) × ZwiftCapture :=
  match c.next_payload with
  | (none, c2) => (Except.ok none, c2)
  | (some m, c2) =>
    match m.get_players pS pC with
    | Except.error e => (Except.error e, c2)
    | Except.ok (some players) => (Except.ok (some players), c2)
    | Except.ok none => (Except.ok none, c2)

/-- noParseS is a server-schema decoder that rejects every window, standing
for windows that are not a valid encoding of the schema. -/
def noParseS : List Nat → Option ServerToClient := fun _ => none

/-- noParseC is a client-schema decoder that rejects every window. -/
def noParseC : List Nat → Option ClientToServer := fun _ => none

/-- zeroState is a concrete rider-state entry with every raw field 0. -/
def zeroState : PlayerState :=
  { id := 0, worldTime := 0, groupId := 0, x := 0, y := 0, heading := 0
    lean_ := 0, roadPosition := 0, speed := 0, distance := 0, time := 0
    laps := 0, climbing := 0, cadenceUHz := 0, heartrate := 0, power := 0
    f20 := 0, watchingRiderId := 0 }

/-- cadenceTestState is the decoded entry of claim C3: raw cadence
frequency field 15 000 000 uHz, every other raw field 0. -/
def cadenceTestState : PlayerState := { zeroState with cadenceUHz := 15000000 }

/-- posTestState is the decoded entry of claim C8: raw x 12345, raw y
-6789, raw speed 3 600 000, flags field 0x1f, every other raw field 0. -/
def posTestState : PlayerState :=
  { zeroState with x := 12345, y := -6789, speed := 3600000, f20 := 0x1f }

/-- C3 counterexample: on the decoded entry with raw cadence-frequency
field 15 000 000 uHz, the normalizer of lib.rs line 68 yields cadence
15 000 000 / 1000 * 6 / 100 = 900 rpm, not the claimed 90 rpm. -/
theorem C3_counterexample :
    (Player.ofState cadenceTestState).cadence = 900 ∧
    (Player.ofState cadenceTestState).cadence ≠ 90 := by
  constructor <;> decide

/-- C3 (amended): the Field Normalizer computes cadence from the raw
micro-hertz frequency field by dividing by 1000, multiplying by 6, then
integer-dividing by 100; for raw field 15 000 000 uHz the normalized
cadence is therefore 900 rpm (raw 1 500 000 uHz would give the claimed
90 rpm). -/
theorem C3_cadence_formula (ps : PlayerState) :
    (Player.ofState ps).cadence = Int.tdiv (Int.tdiv ps.cadenceUHz 1000 * 6) 100 ∧
    (Player.ofState cadenceTestState).cadence = 900 :=
  ⟨rfl, by decide⟩

/-- C8: the Field Normalizer divides raw position integers by 100 into
(exact-rational-modelled) floating point, divides raw speed by 1000 and
then by 3600 (the code divides by 1000, 60 and 60, equal in exact
arithmetic), and masks the low 4 bits of the flags field for power_up;
raw x 12345 and y -6789 normalize to 123.45 and -67.89, raw speed
3 600 000 normalizes to 1, and flags 0x1f gives power_up 15. -/
theorem C8_normalizer_conversions (ps : PlayerState) :
    (Player.ofState ps).x = (ps.x : ℚ) / 100 ∧
    (Player.ofState ps).y = (ps.y : ℚ) / 100 ∧
    (Player.ofState ps).speed = (ps.speed : ℚ) / 1000 / 3600 ∧
    (Player.ofState ps).power_up = Int.land ps.f20 0xf ∧
    (Player.ofState posTestState).x = 123.45 ∧
    (Player.ofState posTestState).y = -67.89 ∧
    (Player.ofState posTestState).speed = 1 ∧
    (Player.ofState posTestState).power_up = 15 := by
  refine ⟨rfl, rfl, ?_, rfl, by norm_num [Player.ofState, posTestState, zeroState],
    by norm_num [Player.ofState, posTestState, zeroState],
    by norm_num [Player.ofState, posTestState, zeroState], by decide⟩
  show (ps.speed : ℚ) / 1000 / 60 / 60 = (ps.speed : ℚ) / 1000 / 3600
  rw [div_div, div_div, div_div]
  norm_num

/-- wsub a 4 is exact subtraction for 4 ≤ a < USIZE + 4. -/
theorem wsub_four_eq (a : Nat) (h4 : 4 ≤ a) (ha : a < USIZE + 4) :
    wsub a 4 = a - 4 := by
  have hU : (4 : Nat) ≤ USIZE := by norm_num [USIZE]
  have h1 : (4 : Nat) % USIZE = 4 := Nat.mod_eq_of_lt (by norm_num [USIZE])
  have h2 : a + (USIZE - 4) = (a - 4) + USIZE := by omega
  rw [wsub, h1, h2, Nat.add_mod_right, Nat.mod_eq_of_lt (by omega)]

/-- wsub a 4 is at most a - 4 whenever 4 ≤ a, with no upper bound on a. -/
theorem wsub_four_le (a : Nat) (h4 : 4 ≤ a) : wsub a 4 ≤ a - 4 := by
  have hU : (4 : Nat) ≤ USIZE := by norm_num [USIZE]
  have h1 : (4 : Nat) % USIZE = 4 := Nat.mod_eq_of_lt (by norm_num [USIZE])
  have h2 : a + (USIZE - 4) = (a - 4) + USIZE := by omega
  rw [wsub, h1, h2, Nat.add_mod_right]
  exact Nat.mod_le _ _

/-- scanOffset breaks at ix + j when the bytes before relative position j
are not 0x08, the byte at j is 0x08, and ix + j is within the limit. -/
theorem scanOffset_finds (limit off0 : Nat) :
    ∀ (p : List Nat) (ix j : Nat),
      (∀ i, i < j → p[i]? ≠ some 8) → p[j]? = some 8 →
      ix + j ≤ limit → scanOffset limit off0 ix p = ix + j := by
  intro p
  induction p with
  | nil => intro ix j _ hj _; simp at hj
  | cons b rest ih =>
    intro ix j hbefore hj hle
    by_cases hb : b = 8
    · have hj0 : j = 0 := by
        by_contra hne
        exact hbefore 0 (Nat.pos_of_ne_zero hne) (by simp [hb])
      subst hj0
      simp [scanOffset, hb]
    · have hj0 : j ≠ 0 := by
        intro h
        subst h
        simp only [List.getElem?_cons_zero, Option.some.injEq] at hj
        exact hb hj
      obtain ⟨j', rfl⟩ := Nat.exists_eq_succ_of_ne_zero hj0
      have hixlim : ix ≠ limit := by omega
      have hrec := ih (ix + 1) j'
        (fun i hi => by
          have := hbefore (i + 1) (by omega)
          simpa using this)
        (by simpa using hj) (by omega)
      simp only [scanOffset, if_neg hb, if_neg hixlim, hrec]
      omega

/-- scanOffset breaks with 0 at position limit when no byte at relative
position k with ix + k ≤ limit is 0x08 and the list reaches that position. -/
theorem scanOffset_no_match (limit off0 : Nat) :
    ∀ (p : List Nat) (ix : Nat),
      (∀ k, ix + k ≤ limit → p[k]? ≠ some 8) →
      limit - ix < p.length → ix ≤ limit →
      scanOffset limit off0 ix p = 0 := by
  intro p
  induction p with
  | nil => intro ix _ hlen _; simp at hlen
  | cons b rest ih =>
    intro ix hno hlen hix
    have hb : b ≠ 8 := by
      have := hno 0 (by omega)
      simpa using this
    by_cases hixlim : ix = limit
    · simp [scanOffset, hb, hixlim]
    · have hrec := ih (ix + 1)
        (fun k hk => by
          have := hno (k + 1) (by omega)
          simpa using this)
        (by simp at hlen; omega) (by omega)
      simp only [scanOffset, if_neg hb, if_neg hixlim, hrec]

/-- scanOffset stays at most limit when the list reaches position limit. -/
theorem scanOffset_le (limit off0 : Nat) :
    ∀ (p : List Nat) (ix : Nat),
      limit - ix < p.length → ix ≤ limit →
      scanOffset limit off0 ix p ≤ limit := by
  intro p
  induction p with
  | nil => intro ix hlen _; simp at hlen
  | cons b rest ih =>
    intro ix hlen hix
    by_cases hb : b = 8
    · simpa [scanOffset, hb] using hix
    · by_cases hixlim : ix = limit
      · simp [scanOffset, hb, hixlim]
      · have hrec := ih (ix + 1) (by simp at hlen; omega) (by omega)
        simpa [scanOffset, hb, hixlim] using hrec

/-- scanOffset depends only on the bytes at positions ix + k ≤ limit and on
whether the list reaches position limit. -/
theorem scanOffset_congr (limit off0 : Nat) :
    ∀ (p q : List Nat) (ix : Nat), p.length = q.length → ix ≤ limit →
      (∀ k, ix + k ≤ limit → p[k]? = q[k]?) →
      scanOffset limit off0 ix p = scanOffset limit off0 ix q := by
  intro p
  induction p with
  | nil =>
    intro q ix hlen _ _
    have : q = [] := by
      cases q with
      | nil => rfl
      | cons c cs => simp at hlen
    subst this
    rfl
  | cons b rest ih =>
    intro q ix hlen hix hagree
    cases q with
    | nil => simp at hlen
    | cons c cs =>
      have hbc : b = c := by
        have := hagree 0 (by omega)
        simpa using this
      subst hbc
      by_cases hb : b = 8
      · simp [scanOffset, hb]
      · by_cases hixlim : ix = limit
        · simp [scanOffset, hb, hixlim]
        · have hrec := ih cs (ix + 1) (by simpa using hlen) (by omega)
            (fun k hk => by
              have := hagree (k + 1) (by omega)
              simpa using this)
          simpa [scanOffset, hb, hixlim] using hrec

/-- listWindow p lo hi is the sub-list of p at the half-open index window
from lo to hi, the value of a valid Rust slice lo..hi. -/
def listWindow (p : List Nat) (lo hi : Nat) : List Nat :=
  (p.drop lo).take (hi - lo)

/-- listWindow depends only on the entries at indexes below hi, for lists
of equal length. -/
theorem listWindow_congr (p q : List Nat) (lo hi : Nat)
    (hagree : ∀ i, i < hi → p[i]? = q[i]?) :
    listWindow p lo hi = listWindow q lo hi := by
  apply List.ext_getElem?
  intro k
  unfold listWindow
  rw [List.getElem?_take, List.getElem?_take]
  by_cases hk : k < hi - lo
  · simp only [if_pos hk, List.getElem?_drop]
    exact hagree (lo + k) (by omega)
  · simp [if_neg hk]

/-- locateOffset never exceeds the limit for payloads of length ≥ 4. -/
theorem locateOffset_le (b : Nat) (p : List Nat) (h4 : 4 ≤ p.length) :
    locateOffset b p ≤ wsub p.length 4 := by
  have hlim : wsub p.length 4 < p.length :=
    lt_of_le_of_lt (wsub_four_le p.length h4) (by omega)
  simp only [locateOffset]
  by_cases hc : wsub p.length 4 ≤ (b + 255) % 256
  · simp only [if_pos hc]
    exact scanOffset_le _ _ p 0 (by omega) (Nat.zero_le _)
  · simp only [if_neg hc]
    omega

/-- get_players on a ToServer payload of length at least 4 never aborts:
the located slice range is valid and the result is the decode of the
located window (lib.rs lines 97-117). -/
theorem toServer_eval (pS : List Nat → Option ServerToClient)
    (pC : List Nat → Option ClientToServer) (b : Nat) (rest : List Nat)
    (h4 : 4 ≤ (b :: rest).length) :
    ZwiftMessage.get_players pS pC (ZwiftMessage.ToServer (b :: rest)) =
      Except.ok (match pC (listWindow (b :: rest) (locateOffset b (b :: rest))
          (wsub (b :: rest).length 4)) with
        | some message => some [Player.ofState message.state]
        | none => some []) := by
  have hle := locateOffset_le b (b :: rest) h4
  have hlim : wsub (b :: rest).length 4 ≤ (b :: rest).length :=
    le_trans (wsub_four_le _ h4) (by omega)
  have hslice : rustSlice (b :: rest) (locateOffset b (b :: rest))
      (wsub (b :: rest).length 4) =
      Except.ok (listWindow (b :: rest) (locateOffset b (b :: rest))
        (wsub (b :: rest).length 4)) := by
    rw [rustSlice, if_pos (And.intro hle hlim)]
    rfl
  simp only [ZwiftMessage.get_players]
  rw [hslice]
  cases hpc : pC (listWindow (b :: rest) (locateOffset b (b :: rest))
      (wsub (b :: rest).length 4)) <;>
    simp only [Except.bind, hpc]

/-- C5: when the primary guess payload[0] - 1 (on u8, with release
wrap-around) is below the limit payload.len() - 4, the Frame Locator keeps
the guess — the fallback scan does not run — and the byte window handed to
the Message Decoder is exactly the half-open window from the guess to the
limit. Payload lengths sit below USIZE as for every Rust slice. -/
theorem C5_primary_guess (pS : List Nat → Option ServerToClient)
    (pC : List Nat → Option ClientToServer) (b : Nat) (rest : List Nat)
    (h4 : 4 ≤ (b :: rest).length) (hU : (b :: rest).length < USIZE)
    (hguess : (b + 255) % 256 < (b :: rest).length - 4) :
    locateOffset b (b :: rest) = (b + 255) % 256 ∧
    ZwiftMessage.get_players pS pC (ZwiftMessage.ToServer (b :: rest)) =
      Except.ok (match pC (listWindow (b :: rest) ((b + 255) % 256)
          ((b :: rest).length - 4)) with
        | some message => some [Player.ofState message.state]
        | none => some []) := by
  have hw : wsub (b :: rest).length 4 = (b :: rest).length - 4 :=
    wsub_four_eq _ h4 (by omega)
  have hloc : locateOffset b (b :: rest) = (b + 255) % 256 := by
    simp only [locateOffset, hw, if_neg (not_le.mpr hguess)]
  refine ⟨hloc, ?_⟩
  rw [toServer_eval pS pC b rest h4, hw, hloc]

/-- C5 witness: payload [2, 9, 8, 7, 6, 5] has guess 1 below limit 2, the
locator keeps offset 1, and with a rejecting decoder the result is the
empty sequence. -/
theorem C5_primary_guess_witness :
    locateOffset 2 [2, 9, 8, 7, 6, 5] = 1 ∧
    ZwiftMessage.get_players noParseS noParseC
      (ZwiftMessage.ToServer [2, 9, 8, 7, 6, 5]) = Except.ok (some []) :=
  C5_primary_guess noParseS noParseC 2 [9, 8, 7, 6, 5] (by norm_num)
    (by norm_num [USIZE]) (by norm_num)

/-- C1 counterexample: payload [255, 1, 1, 1, 8, 1, 1, 1] triggers the
fallback (guess 254 at or past limit 4) and carries no 0x08 byte before the
limit index 4, yet the scan corrects the offset to 4 — the byte at the
limit index itself is 0x08 and the scan tests the byte before testing the
index — not to the claimed default 0. -/
theorem C1_counterexample :
    [255, 1, 1, 1, 8, 1, 1, 1].length - 4 ≤ (255 + 255) % 256 ∧
    8 ∉ [255, 1, 1, 1, 8, 1, 1, 1].take ([255, 1, 1, 1, 8, 1, 1, 1].length - 4) ∧
    locateOffset 255 [255, 1, 1, 1, 8, 1, 1, 1] ≠ 0 ∧
    locateOffset 255 [255, 1, 1, 1, 8, 1, 1, 1] = 4 := by
  refine ⟨by norm_num, by decide, ?_, ?_⟩ <;> decide

/-- C1 (amended): when the primary guess is at or past the limit, the
locator falls back to the forward scan, which examines indexes 0 up to and
including the limit index payload.len() - 4: the first index whose byte is
0x08 — possibly the limit index itself — becomes the corrected offset, and
if no index up to and including the limit holds 0x08 the offset defaults
to 0. -/
theorem C1_fallback_scan (b : Nat) (rest : List Nat)
    (h4 : 4 ≤ (b :: rest).length) (hU : (b :: rest).length < USIZE)
    (hguess : (b :: rest).length - 4 ≤ (b + 255) % 256) :
    (∀ j, j ≤ (b :: rest).length - 4 → (b :: rest)[j]? = some 8 →
      (∀ i, i < j → (b :: rest)[i]? ≠ some 8) →
      locateOffset b (b :: rest) = j) ∧
    ((∀ i, i ≤ (b :: rest).length - 4 → (b :: rest)[i]? ≠ some 8) →
      locateOffset b (b :: rest) = 0) := by
  have hw : wsub (b :: rest).length 4 = (b :: rest).length - 4 :=
    wsub_four_eq _ h4 (by omega)
  have hfall : locateOffset b (b :: rest) =
      scanOffset ((b :: rest).length - 4) ((b + 255) % 256) 0 (b :: rest) := by
    simp only [locateOffset, hw, if_pos hguess]
  constructor
  · intro j hj hj8 hbefore
    rw [hfall]
    have := scanOffset_finds ((b :: rest).length - 4) ((b + 255) % 256)
      (b :: rest) 0 j hbefore hj8 (by omega)
    simpa using this
  · intro hno
    rw [hfall]
    exact scanOffset_no_match _ _ (b :: rest) 0
      (fun k hk => hno k (by omega)) (by omega) (Nat.zero_le _)

/-- C1 witness: payload [255, 1, 1, 1, 1, 1, 1, 1] triggers the fallback
and holds no 0x08 byte at any index up to the limit, so the offset
defaults to 0. -/
theorem C1_fallback_scan_witness :
    locateOffset 255 [255, 1, 1, 1, 1, 1, 1, 1] = 0 :=
  (C1_fallback_scan 255 [1, 1, 1, 1, 1, 1, 1] (by norm_num)
    (by norm_num [USIZE]) (by norm_num)).2
    (fun i hi => by
      norm_num at hi
      interval_cases i <;> decide)

/-- C10: two ToServer payloads of the same length (at least 4, and below
USIZE as for every Rust slice) that agree at every index up to and
including payload.len() - 4 produce identical get_players results under
every decoder pair: the final three bytes never influence the output. -/
theorem C10_last_bytes_irrelevant (pS : List Nat → Option ServerToClient)
    (pC : List Nat → Option ClientToServer) (p q : List Nat)
    (hlen : p.length = q.length) (h4 : 4 ≤ p.length) (hU : p.length < USIZE)
    (hagree : ∀ i, i ≤ p.length - 4 → p[i]? = q[i]?) :
    ZwiftMessage.get_players pS pC (ZwiftMessage.ToServer p) =
    ZwiftMessage.get_players pS pC (ZwiftMessage.ToServer q) := by
  cases p with
  | nil => simp at h4
  | cons a p2 =>
    cases q with
    | nil => rw [hlen] at h4; simp at h4
    | cons c q2 =>
      have hac : a = c := by
        have h0 := hagree 0 (by omega)
        simpa using h0
      subst hac
      have h4q : 4 ≤ (a :: q2).length := hlen ▸ h4
      have hwp : wsub (a :: p2).length 4 = (a :: p2).length - 4 :=
        wsub_four_eq _ h4 (by omega)
      have hwq : wsub (a :: q2).length 4 = (a :: q2).length - 4 :=
        wsub_four_eq _ h4q (by omega)
      have hloc : locateOffset a (a :: p2) = locateOffset a (a :: q2) := by
        simp only [locateOffset, hwp, hwq, ← hlen]
        by_cases hc : (a :: p2).length - 4 ≤ (a + 255) % 256
        · rw [if_pos hc, if_pos hc]
          exact scanOffset_congr _ _ (a :: p2) (a :: q2) 0 hlen (Nat.zero_le _)
            (fun k hk => hagree k (by omega))
        · rw [if_neg hc, if_neg hc]
      have hwin : listWindow (a :: p2) (locateOffset a (a :: q2))
          ((a :: p2).length - 4) =
          listWindow (a :: q2) (locateOffset a (a :: q2))
          ((a :: p2).length - 4) :=
        listWindow_congr _ _ _ _ (fun i hi => hagree i (by omega))
      rw [toServer_eval pS pC a p2 h4, toServer_eval pS pC a q2 h4q,
        hloc, hwp, hwq, ← hlen, hwin]

/-- C10 witness: two payloads of length 7 agreeing on indexes 0 to 3 and
differing in the final three bytes yield the same result. -/
theorem C10_last_bytes_irrelevant_witness :
    ZwiftMessage.get_players noParseS noParseC
      (ZwiftMessage.ToServer [1, 2, 3, 4, 5, 6, 7]) =
    ZwiftMessage.get_players noParseS noParseC
      (ZwiftMessage.ToServer [1, 2, 3, 4, 50, 60, 70]) :=
  C10_last_bytes_irrelevant noParseS noParseC
    [1, 2, 3, 4, 5, 6, 7] [1, 2, 3, 4, 50, 60, 70]
    (by norm_num) (by norm_num) (by norm_num [USIZE])
    (fun i hi => by
      norm_num at hi
      interval_cases i <;> rfl)

/-- C2 counterexample: the decoder boundary is not abort-free on every
payload — a client-originated payload that is empty aborts on the
payload[0] index (lib.rs line 100), and one of length 3 aborts on the
payload slice whose wrapped limit exceeds the length (lib.rs line 113) —
so the never-raises guarantee fails for shorter-than-4-byte ToServer
payloads. -/
theorem C2_counterexample :
    ZwiftMessage.get_players noParseS noParseC (ZwiftMessage.ToServer []) =
      Except.error RustPanic.indexOutOfBounds ∧
    ZwiftMessage.get_players noParseS noParseC (ZwiftMessage.ToServer [1, 2, 3]) =
      Except.error RustPanic.sliceOutOfRange :=
  ⟨rfl, rfl⟩

/-- C2 (amended): get_players never aborts and silently yields the empty
sequence on decode failure, for every FromServer payload and for every
ToServer payload of length at least 4; ToServer payloads shorter than 4
bytes abort (index out of bounds on the empty payload, slice range on
lengths 1 to 3), so the no-abort guarantee excludes them. -/
theorem C2_decode_failure_tolerance (pS : List Nat → Option ServerToClient)
    (pC : List Nat → Option ClientToServer) (p : List Nat) :
    (∃ r, ZwiftMessage.get_players pS pC (ZwiftMessage.FromServer p) =
      Except.ok (some r)) ∧
    (pS p = none →
      ZwiftMessage.get_players pS pC (ZwiftMessage.FromServer p) =
        Except.ok (some [])) ∧
    (4 ≤ p.length →
      (∃ r, ZwiftMessage.get_players pS pC (ZwiftMessage.ToServer p) =
        Except.ok (some r)) ∧
      ((∀ w, pC w = none) →
        ZwiftMessage.get_players pS pC (ZwiftMessage.ToServer p) =
          Except.ok (some []))) := by
  refine ⟨?_, ?_, ?_⟩
  · cases hps : pS p with
    | none => exact ⟨[], by simp [ZwiftMessage.get_players, hps]⟩
    | some m =>
      exact ⟨m.player_states.map Player.ofState,
        by simp [ZwiftMessage.get_players, hps]⟩
  · intro hps
    simp [ZwiftMessage.get_players, hps]
  · intro h4
    cases p with
    | nil => simp at h4
    | cons b rest =>
      rw [toServer_eval pS pC b rest h4]
      constructor
      · cases hpc : pC (listWindow (b :: rest) (locateOffset b (b :: rest))
            (wsub (b :: rest).length 4)) <;> simp [hpc]
      · intro hall
        rw [hall]

/-- C2 witness: a ToServer payload of length 5 under a rejecting decoder
returns the empty sequence without aborting. -/
theorem C2_decode_failure_tolerance_witness :
    ZwiftMessage.get_players noParseS noParseC
      (ZwiftMessage.ToServer [9, 9, 9, 9, 9]) = Except.ok (some []) :=
  ((C2_decode_failure_tolerance noParseS noParseC [9, 9, 9, 9, 9]).2.2
    (by norm_num)).2 (fun w => rfl)

/-- C9: whenever get_players returns (does not abort), the returned Option
is Some — the None arm of the declared return type is never used, on
either message variant, on decode success or failure. -/
theorem C9_always_some (pS : List Nat → Option ServerToClient)
    (pC : List Nat → Option ClientToServer) (msg : ZwiftMessage)
    (r : Option (List Player))
    (h : ZwiftMessage.get_players pS pC msg = Except.ok r) :
    r.isSome = true := by
  cases msg with
  | FromServer p =>
    cases hps : pS p with
    | none =>
      simp only [ZwiftMessage.get_players, hps, Except.ok.injEq] at h
      rw [← h]
      rfl
    | some m =>
      simp only [ZwiftMessage.get_players, hps, Except.ok.injEq] at h
      rw [← h]
      rfl
  | ToServer p =>
    cases p with
    | nil => simp [ZwiftMessage.get_players] at h
    | cons b rest =>
      simp only [ZwiftMessage.get_players] at h
      cases hs : rustSlice (b :: rest) (locateOffset b (b :: rest))
          (wsub (b :: rest).length 4) with
      | error e => rw [hs] at h; simp [Except.bind] at h
      | ok w =>
        rw [hs] at h
        cases hpc : pC w with
        | none =>
          simp only [Except.bind, hpc, Except.ok.injEq] at h
          rw [← h]
          rfl
        | some m =>
          simp only [Except.bind, hpc, Except.ok.injEq] at h
          rw [← h]
          rfl

/-- C9 witness: the empty FromServer payload under a rejecting decoder
returns Some of the empty sequence. -/
theorem C9_always_some_witness :
    (some ([] : List Player)).isSome = true :=
  C9_always_some noParseS noParseC (ZwiftMessage.FromServer [])
    (some []) rfl

/-- C6: a FromServer payload that decodes as the server-to-client schema
yields exactly the normalized records of its rider-state entries, one per
entry in decoded order — equal count, i-th record normalizing the i-th
entry, so none dropped or duplicated — and a payload that fails to decode
yields the empty sequence. -/
theorem C6_server_entries (pS : List Nat → Option ServerToClient)
    (pC : List Nat → Option ClientToServer) (p : List Nat) :
    (∀ m, pS p = some m →
      ZwiftMessage.get_players pS pC (ZwiftMessage.FromServer p) =
        Except.ok (some (m.player_states.map Player.ofState)) ∧
      (m.player_states.map Player.ofState).length = m.player_states.length ∧
      (∀ i : Nat, (m.player_states.map Player.ofState)[i]? =
        (m.player_states[i]?).map Player.ofState)) ∧
    (pS p = none →
      ZwiftMessage.get_players pS pC (ZwiftMessage.FromServer p) =
        Except.ok (some [])) := by
  constructor
  · intro m hm
    have h1 : ZwiftMessage.get_players pS pC (ZwiftMessage.FromServer p) =
        Except.ok (some (m.player_states.map Player.ofState)) := by
      simp [ZwiftMessage.get_players, hm]
    exact ⟨h1, by simp, fun i => by simp⟩
  · intro hm
    simp [ZwiftMessage.get_players, hm]

/-- C6 witness: a decoder producing two entries yields exactly their two
normalized records in order. -/
theorem C6_server_entries_witness :
    ZwiftMessage.get_players (fun _ => some ⟨[zeroState, posTestState]⟩)
      noParseC (ZwiftMessage.FromServer []) =
      Except.ok (some ([zeroState, posTestState].map Player.ofState)) :=
  ((C6_server_entries (fun _ => some ⟨[zeroState, posTestState]⟩) noParseC
    []).1 ⟨[zeroState, posTestState]⟩ rfl).1

/-- C7: a UDP frame always yields exactly one tagged message — FromServer
precisely when the source port is 3022 and ToServer for any other source
port — and neither the destination port nor the rest of the capture (the
connection history) influences the produced message. -/
theorem C7_direction_classifier (sp dp dp2 : Nat) (payload : List Nat)
    (rest rest2 : List Frame) :
    ZwiftCapture.next_payload ⟨Frame.udp sp dp payload :: rest⟩ =
      (some (if sp = 3022 then ZwiftMessage.FromServer payload
             else ZwiftMessage.ToServer payload), ⟨rest⟩) ∧
    ((ZwiftCapture.next_payload ⟨Frame.udp sp dp payload :: rest⟩).1 =
        some (ZwiftMessage.FromServer payload) ↔ sp = 3022) ∧
    (ZwiftCapture.next_payload ⟨Frame.udp sp dp payload :: rest⟩).1 =
      (ZwiftCapture.next_payload ⟨Frame.udp sp dp2 payload :: rest2⟩).1 := by
  refine ⟨rfl, ?_, rfl⟩
  by_cases hsp : sp = 3022 <;>
    simp [ZwiftCapture.next_payload, hsp]

/-- C4 counterexample: on a capture whose first frame carries no UDP
transport while a further UDP frame remains, next returns none — the very
signal that ends iteration, identical to the exhaustion signal — and not
the claimed zero-record continuation Some []. -/
theorem C4_counterexample :
    (ZwiftCapture.next noParseS noParseC
      ⟨[Frame.nonUdpTransport, Frame.udp 3022 0 []]⟩).1 = Except.ok none ∧
    (ZwiftCapture.next noParseS noParseC
      ⟨[Frame.nonUdpTransport, Frame.udp 3022 0 []]⟩).1 ≠
      Except.ok (some []) := by
  have h1 : (ZwiftCapture.next noParseS noParseC
      ⟨[Frame.nonUdpTransport, Frame.udp 3022 0 []]⟩).1 = Except.ok none := rfl
  refine ⟨h1, ?_⟩
  rw [h1]
  simp

/-- C4 (amended): a frame that fails ethernet decapsulation or carries no
UDP transport makes next return none for that cycle — the same signal as
source exhaustion, so a conventional iterator consumer terminates there —
while the capture state still advances past the offending frame, so only
explicitly pulling next again continues with the remaining frames;
exhaustion of the source likewise returns none. -/
theorem C4_non_udp_cycle (pS : List Nat → Option ServerToClient)
    (pC : List Nat → Option ClientToServer) (f : Frame) (rest : List Frame)
    (hf : f = Frame.badEthernet ∨ f = Frame.nonUdpTransport) :
    ZwiftCapture.next pS pC ⟨f :: rest⟩ = (Except.ok none, ⟨rest⟩) ∧
    ZwiftCapture.next pS pC ⟨[]⟩ = (Except.ok none, ⟨[]⟩) := by
  rcases hf with rfl | rfl <;> exact ⟨rfl, rfl⟩

/-- C4 witness: a bad-ethernet frame yields the none signal and the
advanced state. -/
theorem C4_non_udp_cycle_witness :
    ZwiftCapture.next noParseS noParseC ⟨[Frame.badEthernet]⟩ =
      (Except.ok none, ⟨[]⟩) ∧
    ZwiftCapture.next noParseS noParseC ⟨[]⟩ = (Except.ok none, ⟨[]⟩) :=
  C4_non_udp_cycle noParseS noParseC Frame.badEthernet [] (Or.inl rfl)

end Zwift
